import Mathlib

/-
Verification development for the bitrain repository.

Shallow embedding of:
 * the bencode value codec       (bitrain-core/src/bencoded/encoding.rs),
 * the peer-wire message codec   (bitrain-core/src/messages.rs and the code
   generated by bitrain-derive/src/messages/recv.rs and decode.rs),
 * the older peer-wire codec     (build_torrent_core/src/messages.rs),
 * the metainfo field lookups    (build_torrent_core/src/bencoded/custom.rs).

Bytes are modelled as Nat values (each byte is below 256 on real input, but
none of the modelled functions depends on that bound).  Byte streams are
modelled as List Nat, read from the front.  Rust Read failures (an
unexpected end of stream while a read_exact or read_u8 style call is in
flight) are modelled by an outer Option: none stands for an io error or a
panic, some r for a normal return with result r.
-/

/- ===================================================================
   Section 1: the bencode value model
   (bitrain-core/src/bencoded/encoding.rs)
   =================================================================== -/

/- The Entry enum of encoding.rs lines 41 to 47.  BInt is u64
   (bencoded.rs line 17), BString a byte string, BDictionary a hash map
   from byte strings to entries, modelled as an association list. -/
inductive Entry : Type where
  | int : Nat → Entry
  | str : List Nat → Entry
  | list : List Entry → Entry
  | dict : List (List Nat × Entry) → Entry

/- The error enum of encoding.rs lines 296 to 301.  The io variant can
   never be produced by the iterator based decoders and is kept only to
   mirror the source type. -/
inductive BErr : Type where
  | io : BErr
  | invalidFormat : BErr
  | invalidValue : BErr
  | unexpectedEOF : BErr
deriving DecidableEq

/- Decimal digit test for a byte: 48 is the code of 0, 57 of 9. -/
def isDigitB (b : Nat) : Bool :=
  decide (48 ≤ b) && decide (b ≤ 57)

def digitsToNat (s : List Nat) : Nat :=
  s.foldl (fun a b => a * 10 + (b - 48)) 0

/- Digits only part of Rust str::parse for an unsigned integer type:
   at least one character, all decimal digits. -/
def parseDigitsOnly (s : List Nat) : Option Nat :=
  if s.isEmpty then none
  else if s.all isDigitB then some (digitsToNat s)
  else none

/- utils::parse_utf8_bytes::<u64> and ::<usize> of encoding.rs lines 320
   to 324 (usize is 64 bit here, so both share one bound).  Rust unsigned
   FromStr accepts an optional leading plus sign (byte 43), requires at
   least one digit, and fails on overflow past u64::MAX; a parse failure
   and an invalid utf8 sequence both turn into Error::InvalidValue. -/
def parseU64 (s : List Nat) : Option Nat :=
  let core :=
    match s with
    | 43 :: rest => parseDigitsOnly rest
    | _ => parseDigitsOnly s
  match core with
  | some n => if n < 18446744073709551616 then some n else none
  | none => none

/- utils::collect_up_to of encoding.rs lines 326 to 330: take_while on
   the iterator collects the bytes before the delimiter and consumes the
   delimiter itself when present; with no delimiter the whole rest is
   consumed.  Returns the collected bytes and the remaining stream. -/
def collectUpTo (d : Nat) : List Nat → List Nat × List Nat
  | [] => ([], [])
  | b :: rest =>
    if b = d then ([], rest)
    else
      let p := collectUpTo d rest
      (b :: p.1, p.2)

/- BInt::decode of encoding.rs lines 154 to 166: the first byte must be
   the integer delimiter i (105), the body runs to the end delimiter
   e (101) and is parsed as u64. -/
def decodeIntF (s : List Nat) : Except BErr (Nat × List Nat) :=
  match s with
  | [] => .error .invalidFormat
  | b :: rest =>
    if b = 105 then
      let p := collectUpTo 101 rest
      match parseU64 p.1 with
      | some n => .ok (n, p.2)
      | none => .error .invalidValue
    else .error .invalidFormat

/- BString::decode of encoding.rs lines 178 to 191: the length prefix
   runs to the colon delimiter (58) and is parsed as usize, then exactly
   that many raw bytes are taken; fewer available bytes give
   Error::UnexpectedEOF. -/
def decodeStrF (s : List Nat) : Except BErr (List Nat × List Nat) :=
  let p := collectUpTo 58 s
  match parseU64 p.1 with
  | none => .error .invalidValue
  | some len =>
    if p.2.length < len then .error .unexpectedEOF
    else .ok (p.2.take len, p.2.drop len)

/- HashMap::insert on the association list model: a repeated key
   overwrites the earlier value (encoding.rs line 257). -/
def dictInsert (k : List Nat) (v : Entry) :
    List (List Nat × Entry) → List (List Nat × Entry)
  | [] => [(k, v)]
  | (k1, v1) :: rest =>
    if k1 = k then (k1, v) :: rest
    else (k1, v1) :: dictInsert k v rest

/- The recursive decoders, with an explicit fuel argument to exhibit
   termination; none stands for fuel exhaustion (every top level use
   passes length of input plus one, which always suffices because each
   recursive step consumes at least one byte). -/
mutual

/- Entry::decode of encoding.rs lines 127 to 141: peek at the first byte
   and dispatch: i (105) to BInt::decode, l (108) to BList::decode,
   d (100) to BDictionary::decode, anything else to BString::decode; an
   empty stream gives Error::InvalidFormat. -/
def decodeEntryF : Nat → List Nat → Option (Except BErr (Entry × List Nat))
  | 0, _ => none
  | Nat.succ fuel, s =>
    match s with
    | [] => some (.error .invalidFormat)
    | b :: _ =>
      if b = 105 then
        some ((decodeIntF s).map (fun p => (Entry.int p.1, p.2)))
      else if b = 108 then decodeListF fuel s
      else if b = 100 then decodeDictF fuel s
      else some ((decodeStrF s).map (fun p => (Entry.str p.1, p.2)))

/- BList::decode of encoding.rs lines 203 to 222: the first byte must be
   the list delimiter l (108), then entries are decoded until the end
   delimiter e (101); running out of bytes gives Error::UnexpectedEOF. -/
def decodeListF : Nat → List Nat → Option (Except BErr (Entry × List Nat))
  | 0, _ => none
  | Nat.succ fuel, s =>
    match s with
    | [] => some (.error .invalidFormat)
    | b :: rest =>
      if b = 108 then
        match decodeItemsF fuel rest with
        | none => none
        | some (.error e) => some (.error e)
        | some (.ok p) => some (.ok (Entry.list p.1, p.2))
      else some (.error .invalidFormat)

/- The item loop of BList::decode. -/
def decodeItemsF : Nat → List Nat → Option (Except BErr (List Entry × List Nat))
  | 0, _ => none
  | Nat.succ fuel, s =>
    match s with
    | [] => some (.error .unexpectedEOF)
    | 101 :: rest => some (.ok ([], rest))
    | _ =>
      match decodeEntryF fuel s with
      | none => none
      | some (.error e) => some (.error e)
      | some (.ok (v, r1)) =>
        match decodeItemsF fuel r1 with
        | none => none
        | some (.error e) => some (.error e)
        | some (.ok (vs, r2)) => some (.ok (v :: vs, r2))

/- BDictionary::decode of encoding.rs lines 238 to 264.  NOTE faithful to
   the source: line 240 compares the first byte against LIST_PREFIX, the
   byte l (108), not against DICTIONARY_PREFIX (100). -/
def decodeDictF : Nat → List Nat → Option (Except BErr (Entry × List Nat))
  | 0, _ => none
  | Nat.succ fuel, s =>
    match s with
    | [] => some (.error .invalidFormat)
    | b :: rest =>
      if b = 108 then
        match decodePairsF fuel [] rest with
        | none => none
        | some (.error e) => some (.error e)
        | some (.ok p) => some (.ok (Entry.dict p.1, p.2))
      else some (.error .invalidFormat)

/- The key value loop of BDictionary::decode: keys decode as byte
   strings, values as entries, pairs accumulate by HashMap::insert. -/
def decodePairsF : Nat → List (List Nat × Entry) → List Nat →
    Option (Except BErr (List (List Nat × Entry) × List Nat))
  | 0, _, _ => none
  | Nat.succ fuel, acc, s =>
    match s with
    | [] => some (.error .unexpectedEOF)
    | 101 :: rest => some (.ok (acc, rest))
    | _ =>
      match decodeStrF s with
      | .error e => some (.error e)
      | .ok (k, r1) =>
        match decodeEntryF fuel r1 with
        | none => none
        | some (.error e) => some (.error e)
        | some (.ok (v, r2)) => decodePairsF fuel (dictInsert k v acc) r2

end

/- Top level Entry::decode on a byte slice.  The fuel value, length of
   the input plus one, always suffices, because every recursive call
   consumes at least one byte of input first; the none branch is
   unreachable and only discharges the Option. -/
def bdecode (s : List Nat) : Except BErr (Entry × List Nat) :=
  match decodeEntryF (s.length + 1) s with
  | some r => r
  | none => .error .invalidFormat

/- Decimal representation of a nonnegative integer, most significant
   digit first, as produced by the Rust Display formatting used in
   encoding.rs lines 171 and 195. -/
def natToDec (n : Nat) : List Nat :=
  (Nat.toDigits 10 n).map Char.toNat

/- BEncode for byte strings, encoding.rs lines 193 to 201: decimal
   length, colon, raw bytes. -/
def encodeStr (s : List Nat) : List Nat :=
  natToDec s.length ++ [58] ++ s

/- Strict lexicographic byte order, the Ord instance of Rust byte
   slices used by the key comparator of encoding.rs line 317: pointwise
   comparison, a strict prefix is smaller. -/
def lexLtb : List Nat → List Nat → Bool
  | _, [] => false
  | [], _ :: _ => true
  | a :: as, b :: bs => decide (a < b) || (decide (a = b) && lexLtb as bs)

def lexLt (a b : List Nat) : Prop := lexLtb a b = true

def lexLe (a b : List Nat) : Prop := lexLt a b ∨ a = b

instance (a b : List Nat) : Decidable (lexLt a b) :=
  inferInstanceAs (Decidable (lexLtb a b = true))

instance (a b : List Nat) : Decidable (lexLe a b) :=
  inferInstanceAs (Decidable (lexLt a b ∨ a = b))

/- Key order on key value pairs: the comparator of
   utils::sort_key_value_entries, encoding.rs lines 316 to 318, looks
   only at the keys. -/
def keyLe {α : Type} (p q : List Nat × α) : Prop := lexLe p.1 q.1

def keyLt {α : Type} (p q : List Nat × α) : Prop := lexLt p.1 q.1

instance {α : Type} : DecidableRel (@keyLe α) :=
  fun p q => inferInstanceAs (Decidable (lexLe p.1 q.1))

/- Rust slice sort_by is a stable sort; on inputs whose keys are
   pairwise distinct every sorted permutation is unique, so the choice
   of sorting algorithm is immaterial for the verified statements.
   Insertion sort stands in for it here. -/
def sortPairs {α : Type} (l : List (List Nat × α)) : List (List Nat × α) :=
  List.insertionSort keyLe l

/- The pair emission loop of the dictionary encoder, encoding.rs lines
   273 to 276: each key as a bencoded string followed by the already
   encoded value bytes. -/
def joinKV : List (List Nat × List Nat) → List Nat
  | [] => []
  | (k, v) :: rest => encodeStr k ++ v ++ joinKV rest

mutual

/- BEncode for Entry (encoding.rs lines 143 to 152) together with the
   integer, string, list and dictionary encoders (lines 168 to 294).
   The dictionary encoder collects the pairs, sorts them by key with
   utils::sort_key_value_entries and emits d, the pairs, e.  Sorting
   compares keys only and encoding of a value does not depend on its
   position, so sorting (key, value) pairs and then encoding each value
   equals encoding each value first and then sorting the
   (key, encoded value) pairs, which is the form used here. -/
def encodeEntry : Entry → List Nat
  | .int n => 105 :: (natToDec n ++ [101])
  | .str s => encodeStr s
  | .list l => 108 :: (encodeEntries l ++ [101])
  | .dict d => 100 :: (joinKV (sortPairs (encodeDictVals d)) ++ [101])

def encodeEntries : List Entry → List Nat
  | [] => []
  | e :: es => encodeEntry e ++ encodeEntries es

def encodeDictVals : List (List Nat × Entry) → List (List Nat × List Nat)
  | [] => []
  | (k, e) :: rest => (k, encodeEntry e) :: encodeDictVals rest

end

/- ===================================================================
   Section 2: metainfo field lookups
   (build_torrent_core/src/bencoded/custom.rs)
   =================================================================== -/

/- The two error variants produced by the lookup helpers; the source
   carries a static field name, modelled as the key bytes. -/
inductive FError : Type where
  | missingField : List Nat → FError
  | invalidFormat : List Nat → FError

/- HashMap::remove: delete the entry for the key and return its value
   when present. -/
def dictRemove (k : List Nat) :
    List (List Nat × Entry) → Option Entry × List (List Nat × Entry)
  | [] => (none, [])
  | (k1, v) :: rest =>
    if k1 = k then (some v, rest)
    else
      let p := dictRemove k rest
      (p.1, (k1, v) :: p.2)

/- utils::parse_required_primitive of custom.rs lines 136 to 146:
   remove the key, fail with MissingField when it was absent, run the
   shape extractor, fail with InvalidFormat when the shape is wrong.
   The second component is the dictionary after the call. -/
def parseRequired {α : Type} (ex : Entry → Option α)
    (d : List (List Nat × Entry)) (k : List Nat) :
    Except FError α × List (List Nat × Entry) :=
  let p := dictRemove k d
  match p.1 with
  | none => (.error (.missingField k), p.2)
  | some e =>
    match ex e with
    | none => (.error (.invalidFormat k), p.2)
    | some v => (.ok v, p.2)

/- utils::parse_optional_primitive of custom.rs lines 125 to 134:
   remove the key, run the extractor, collapse both failure modes into
   none; the return type has no error channel at all. -/
def parseOptional {α : Type} (ex : Entry → Option α)
    (d : List (List Nat × Entry)) (k : List Nat) :
    Option α × List (List Nat × Entry) :=
  let p := dictRemove k d
  (p.1.bind ex, p.2)

/- The TryFrom shape extractor for integers (encoding.rs lines 101 to
   111), used to instantiate the generic lookup statements. -/
def entryToInt : Entry → Option Nat
  | .int n => some n
  | _ => none

/- The key is bound to no pair of the dictionary. -/
def keyNotIn (k : List Nat) (d : List (List Nat × Entry)) : Prop :=
  ∀ p ∈ d, p.1 ≠ k

instance (k : List Nat) (d : List (List Nat × Entry)) :
    Decidable (keyNotIn k d) :=
  inferInstanceAs (Decidable (∀ p ∈ d, p.1 ≠ k))

/- ===================================================================
   Section 3: the peer-wire field codecs of bitrain-core
   (bitrain-core/src/messages.rs)
   =================================================================== -/

/- Result of a Decode::decode_from call (messages.rs line 228): the
   outer Option models an io error (none); a normal return carries the
   optional decoded value, the updated len_hint and the rest of the
   stream. -/
def DecRes (α : Type) : Type := Option (Option α × Nat × List Nat)

/- Decode for u8, messages.rs lines 419 to 427: when len_hint is
   smaller than one the value is absent; otherwise one byte is read.
   Faithful to the source, len_hint is NOT decremented by the byte
   consumed (unlike the other primitive decoders below). -/
def decodeU8 (hint : Nat) (s : List Nat) : DecRes Nat :=
  if hint < 1 then some (none, hint, s)
  else
    match s with
    | [] => none
    | b :: rest => some (some b, hint, rest)

/- Big endian value of a byte list. -/
def beVal (s : List Nat) : Nat :=
  s.foldl (fun a b => a * 256 + b) 0

/- The impl_sr_for_primitive macro, messages.rs lines 384 to 434,
   instantiated at u16, u32, u64, u128 via the byte width k: when
   len_hint is below the width the value is absent and nothing is
   consumed, otherwise len_hint is decremented by the width and the
   bytes are read network endian. -/
def decodePrimBE (k : Nat) (hint : Nat) (s : List Nat) : DecRes Nat :=
  if hint < k then some (none, hint, s)
  else if s.length < k then none
  else some (some (beVal (s.take k)), hint - k, s.drop k)

/- Decode for Vec of u8, messages.rs lines 456 to 464: read exactly
   len_hint bytes (read_exact, an io error when fewer are available)
   and set len_hint to zero. -/
def decodeVecAll (hint : Nat) (s : List Nat) : DecRes (List Nat) :=
  if s.length < hint then none
  else some (some (s.take hint), 0, s.drop hint)

/- Decode for the fixed size byte arrays and boxed arrays, messages.rs
   lines 472 to 504: absent when len_hint is below the width k,
   otherwise exactly k bytes are read and len_hint drops by k. -/
def decodeArr (k : Nat) (hint : Nat) (s : List Nat) : DecRes (List Nat) :=
  if hint < k then some (none, hint, s)
  else if s.length < k then none
  else some (some (s.take k), hint - k, s.drop k)

/- Decode::decode_or_discard_from, messages.rs lines 235 to 243: run
   the decoder; when the value comes back absent, discard the updated
   len_hint many bytes from the reader (utils::discard_bytes, an io
   copy into a sink, which stops quietly at end of stream). -/
def decodeOrDiscard {α : Type} (d : Nat → List Nat → DecRes α)
    (hint : Nat) (s : List Nat) : DecRes α :=
  match d hint s with
  | none => none
  | some (some v, h, r) => some (some v, h, r)
  | some (none, h, r) => some (none, h, r.drop h)

/- The message structs of messages.rs lines 113 to 155. -/
structure HaveM where
  pieceIndex : Nat

structure BitfieldM where
  bits : List Nat

structure RequestM where
  pieceIndex : Nat
  offset : Nat
  dataLength : Nat

structure PieceM where
  pieceIndex : Nat
  offset : Nat
  data : List Nat

structure CancelM where
  pieceIndex : Nat
  offset : Nat
  dataLength : Nat

/- The Message enum of messages.rs lines 25 to 41. -/
inductive MessageM : Type where
  | choke : MessageM
  | unchoke : MessageM
  | interested : MessageM
  | notInterested : MessageM
  | have : HaveM → MessageM
  | bitfield : BitfieldM → MessageM
  | request : RequestM → MessageM
  | piece : PieceM → MessageM
  | cancel : CancelM → MessageM

/- The Decode impls generated by bitrain-derive/src/messages/decode.rs:
   each field decodes in declaration order through decode_from on the
   shared len_hint; an absent field aborts with an absent result. -/
def decodeHave (hint : Nat) (s : List Nat) : DecRes HaveM :=
  match decodePrimBE 4 hint s with
  | none => none
  | some (none, h, r) => some (none, h, r)
  | some (some idx, h, r) => some (some ⟨idx⟩, h, r)

def decodeBitfield (hint : Nat) (s : List Nat) : DecRes BitfieldM :=
  match decodeVecAll hint s with
  | none => none
  | some (none, h, r) => some (none, h, r)
  | some (some bs, h, r) => some (some ⟨bs⟩, h, r)

def decodeRequest (hint : Nat) (s : List Nat) : DecRes RequestM :=
  match decodePrimBE 4 hint s with
  | none => none
  | some (none, h, r) => some (none, h, r)
  | some (some idx, h1, s1) =>
    match decodePrimBE 4 h1 s1 with
    | none => none
    | some (none, h, r) => some (none, h, r)
    | some (some off, h2, s2) =>
      match decodePrimBE 4 h2 s2 with
      | none => none
      | some (none, h, r) => some (none, h, r)
      | some (some dl, h3, s3) => some (some ⟨idx, off, dl⟩, h3, s3)

def decodePiece (hint : Nat) (s : List Nat) : DecRes PieceM :=
  match decodePrimBE 4 hint s with
  | none => none
  | some (none, h, r) => some (none, h, r)
  | some (some idx, h1, s1) =>
    match decodePrimBE 4 h1 s1 with
    | none => none
    | some (none, h, r) => some (none, h, r)
    | some (some off, h2, s2) =>
      match decodeVecAll h2 s2 with
      | none => none
      | some (none, h, r) => some (none, h, r)
      | some (some dat, h3, s3) => some (some ⟨idx, off, dat⟩, h3, s3)

def decodeCancel (hint : Nat) (s : List Nat) : DecRes CancelM :=
  match decodePrimBE 4 hint s with
  | none => none
  | some (none, h, r) => some (none, h, r)
  | some (some idx, h1, s1) =>
    match decodePrimBE 4 h1 s1 with
    | none => none
    | some (none, h, r) => some (none, h, r)
    | some (some off, h2, s2) =>
      match decodePrimBE 4 h2 s2 with
      | none => none
      | some (none, h, r) => some (none, h, r)
      | some (some dl, h3, s3) => some (some ⟨idx, off, dl⟩, h3, s3)

/- Recv::recv_from for Message as generated by
   bitrain-derive/src/messages/recv.rs lines 162 to 195, driven by
   Connection::recv (bitrain-core/src/peer.rs lines 70 to 72), which
   calls it directly and performs no residual handling of its own.
   Steps: read the four byte frame length; a zero length is a keep
   alive (absent result); read the id byte; decrement the remaining
   length by one; dispatch on the id.  The unit variants Choke,
   Unchoke, Interested, NotInterested carry ids 0 to 3; the payload
   variants decode through decode_or_discard_from; an id matching no
   arm falls to the catch all, which returns an absent result and, in
   the source, discards nothing. -/
def recvMessageCore (s : List Nat) : Option (Option MessageM × List Nat) :=
  match decodeOrDiscard (decodePrimBE 4) 4 s with
  | none => none
  | some (none, _, r) => some (none, r)
  | some (some len, _, s1) =>
    if len = 0 then some (none, s1)
    else
      match decodeOrDiscard decodeU8 1 s1 with
      | none => none
      | some (none, _, r) => some (none, r)
      | some (some id, _, s2) =>
        let lenHint := len - 1
        match id with
        | 0 => some (some .choke, s2)
        | 1 => some (some .unchoke, s2)
        | 2 => some (some .interested, s2)
        | 3 => some (some .notInterested, s2)
        | 4 =>
          match decodeOrDiscard decodeHave lenHint s2 with
          | none => none
          | some (v, _, r) => some (v.map .have, r)
        | 5 =>
          match decodeOrDiscard decodeBitfield lenHint s2 with
          | none => none
          | some (v, _, r) => some (v.map .bitfield, r)
        | 6 =>
          match decodeOrDiscard decodeRequest lenHint s2 with
          | none => none
          | some (v, _, r) => some (v.map .request, r)
        | 7 =>
          match decodeOrDiscard decodePiece lenHint s2 with
          | none => none
          | some (v, _, r) => some (v.map .piece, r)
        | 8 =>
          match decodeOrDiscard decodeCancel lenHint s2 with
          | none => none
          | some (v, _, r) => some (v.map .cancel, r)
        | _ => some (none, s2)

/- The Handshake struct of messages.rs lines 64 to 69, with the byte
   array fields as byte lists. -/
structure HandshakeM where
  reserved : List Nat
  infoHash : List Nat
  peerId : List Nat

/- The ascii bytes of the literal BitTorrent protocol
   (messages.rs line 72). -/
def protoBytes : List Nat :=
  [66, 105, 116, 84, 111, 114, 114, 101, 110, 116, 32,
   112, 114, 111, 116, 111, 99, 111, 108]

/- Recv for Handshake, messages.rs lines 325 to 356: read one byte as
   the protocol name length, read that many bytes, compare against the
   literal; a mismatch returns an absent result right away (no residual
   is meaningful).  On a match, with len_hint 48, read the 8 reserved
   bytes, the 20 info hash bytes and the 20 peer id bytes. -/
def handshakeRecv (s : List Nat) : Option (Option HandshakeM × List Nat) :=
  match decodeOrDiscard decodeU8 1 s with
  | none => none
  | some (none, _, r) => some (none, r)
  | some (some pl, _, s1) =>
    match decodeOrDiscard decodeVecAll pl s1 with
    | none => none
    | some (none, _, r) => some (none, r)
    | some (some proto, _, s2) =>
      if proto = protoBytes then
        match decodeOrDiscard (decodeArr 8) 48 s2 with
        | none => none
        | some (none, _, r) => some (none, r)
        | some (some res, h1, s3) =>
          match decodeOrDiscard (decodeArr 20) h1 s3 with
          | none => none
          | some (none, _, r) => some (none, r)
          | some (some ih, h2, s4) =>
            match decodeOrDiscard (decodeArr 20) h2 s4 with
            | none => none
            | some (none, _, r) => some (none, r)
            | some (some pid, _, s5) => some (some ⟨res, ih, pid⟩, s5)
      else some (none, s2)

/- The four big endian bytes of a u32 value, as written by
   WriteBytesExt::write_u32 with NetworkEndian. -/
def toBE32 (n : Nat) : List Nat :=
  [n / 16777216 % 256, n / 65536 % 256, n / 256 % 256, n % 256]

/- Send for Container of a standalone message, messages.rs lines 311 to
   323: take the payload size from Encode::size, write size plus one as
   a four byte big endian length, write the one byte type id, write the
   encoded payload.  The body performs writes only; it never flushes
   the writer.  The size argument mirrors the size method result of the
   wrapped message (equal to the length of its encoded payload). -/
def sendContainerCore (id : Nat) (size : Nat) (payload : List Nat) : List Nat :=
  toBE32 (size + 1) ++ id :: payload

/- ===================================================================
   Section 4: the peer-wire codec of build_torrent_core
   (build_torrent_core/src/messages.rs)
   =================================================================== -/

structure HaveBT where
  pieceIndex : Nat
deriving DecidableEq

structure RequestBT where
  pieceIndex : Nat
  offset : Nat
  dataLength : Nat
deriving DecidableEq

structure CancelBT where
  pieceIndex : Nat
  offset : Nat
  dataLength : Nat
deriving DecidableEq

structure BitfieldBT where
  bits : List Nat
deriving DecidableEq

structure PieceBT where
  pieceIndex : Nat
  offset : Nat
  data : List Nat
deriving DecidableEq

/- read_u32 with NetworkEndian on the byte stream; an io error (none)
   when fewer than four bytes remain. -/
def readU32BT (s : List Nat) : Option (Nat × List Nat) :=
  if s.length < 4 then none
  else some (beVal (s.take 4), s.drop 4)

/- Recv for Have, build_torrent_core/src/messages.rs lines 436 to 450.
   Result shape: outer none is an io error, then the optional message,
   the len_hint after the call, the remaining stream.
   check_length_exact (lines 330 to 338) passes when the hint is absent
   or equals EXPECTED_LEN, here 5 (one id byte plus one u32); otherwise
   the result is absent with the hint untouched.  On an id mismatch the
   hint becomes EXPECTED_LEN minus one, the id byte being consumed. -/
def recvHaveBT (hint : Option Nat) (s : List Nat) :
    Option (Option HaveBT × Option Nat × List Nat) :=
  if hint.getD 5 = 5 then
    match s with
    | [] => none
    | id :: s1 =>
      if id = 4 then
        match readU32BT s1 with
        | none => none
        | some (idx, s2) => some (some ⟨idx⟩, some 0, s2)
      else some (none, some 4, s1)
  else some (none, hint, s)

/- Recv for Request, lines 495 to 515; EXPECTED_LEN is 13. -/
def recvRequestBT (hint : Option Nat) (s : List Nat) :
    Option (Option RequestBT × Option Nat × List Nat) :=
  if hint.getD 13 = 13 then
    match s with
    | [] => none
    | id :: s1 =>
      if id = 6 then
        match readU32BT s1 with
        | none => none
        | some (idx, s2) =>
          match readU32BT s2 with
          | none => none
          | some (off, s3) =>
            match readU32BT s3 with
            | none => none
            | some (dl, s4) => some (some ⟨idx, off, dl⟩, some 0, s4)
      else some (none, some 12, s1)
  else some (none, hint, s)

/- Recv for Cancel, lines 530 to 549; EXPECTED_LEN is 13. -/
def recvCancelBT (hint : Option Nat) (s : List Nat) :
    Option (Option CancelBT × Option Nat × List Nat) :=
  if hint.getD 13 = 13 then
    match s with
    | [] => none
    | id :: s1 =>
      if id = 8 then
        match readU32BT s1 with
        | none => none
        | some (idx, s2) =>
          match readU32BT s2 with
          | none => none
          | some (off, s3) =>
            match readU32BT s3 with
            | none => none
            | some (dl, s4) => some (some ⟨idx, off, dl⟩, some 0, s4)
      else some (none, some 12, s1)
  else some (none, hint, s)

/- Recv for Bitfield, lines 463 to 482.  The hint is mandatory (the
   source panics through expect when it is absent, modelled as none).
   A hint below MIN_LEN 1 gives an absent result with the hint kept; an
   id mismatch keeps the hint value len.  Faithful to line 476, the bit
   buffer read after the id byte has size len, the full hint, not len
   minus one. -/
def recvBitfieldBT (hint : Option Nat) (s : List Nat) :
    Option (Option BitfieldBT × Option Nat × List Nat) :=
  match hint with
  | none => none
  | some len =>
    if len < 1 then some (none, some len, s)
    else
      match s with
      | [] => none
      | id :: s1 =>
        if id = 5 then
          if s1.length < len then none
          else some (some ⟨s1.take len⟩, some 0, s1.drop len)
        else some (none, some len, s1)

/- Recv for Piece, lines 565 to 593.  The hint is mandatory; a hint
   below MIN_LEN 8 gives an absent result; an id mismatch sets the hint
   to len minus one; otherwise two u32 fields are read and then
   len minus 8 data bytes. -/
def recvPieceBT (hint : Option Nat) (s : List Nat) :
    Option (Option PieceBT × Option Nat × List Nat) :=
  match hint with
  | none => none
  | some len =>
    if len < 8 then some (none, some len, s)
    else
      match s with
      | [] => none
      | id :: s1 =>
        if id = 7 then
          match readU32BT s1 with
          | none => none
          | some (idx, s2) =>
            match readU32BT s2 with
            | none => none
            | some (off, s3) =>
              let dl := len - 8
              if s3.length < dl then none
              else some (some ⟨idx, off, s3.take dl⟩, some 0, s3.drop dl)
        else some (none, some (len - 1), s1)

/- Send for SendContainer, build_torrent_core/src/messages.rs lines 408
   to 417: the inner size is written through write_u8, a SINGLE byte
   (with a panic, modelled as none, when it does not fit in u8), and
   then the inner send_to runs; the inner byte sequence for these
   message types is the id byte followed by the payload. -/
def sendContainerBT (size : Nat) (inner : List Nat) : Option (List Nat) :=
  if size < 256 then some (size :: inner) else none

/- Send for Choke (the impl_message_without_payload macro, lines 340 to
   370): size is one and the body is the single id byte 0. -/
def sizeChokeBT : Nat := 1

def sendChokeBT : List Nat := [0]

/- ===================================================================
   Helper lemmas
   =================================================================== -/

theorem take_len_append (p q : List Nat) : (p ++ q).take p.length = p := by
  induction p with
  | nil => rfl
  | cons a as ih => simp [ih]

theorem drop_len_append (p q : List Nat) : (p ++ q).drop p.length = q := by
  induction p with
  | nil => rfl
  | cons a as ih => simp [ih]

theorem decodeVecAll_exact (p q : List Nat) :
    decodeVecAll p.length (p ++ q) = some (some p, 0, q) := by
  have h : ¬ (p ++ q).length < p.length := by
    simp [List.length_append]
  rw [decodeVecAll, if_neg h, take_len_append, drop_len_append]

theorem decodeArr_exact (k hint : Nat) (p q : List Nat)
    (hk : p.length = k) (hh : k ≤ hint) :
    decodeArr k hint (p ++ q) = some (some p, hint - k, q) := by
  subst hk
  have h1 : ¬ hint < p.length := Nat.not_lt.2 hh
  have h2 : ¬ (p ++ q).length < p.length := by
    simp [List.length_append]
  rw [decodeArr, if_neg h1, if_neg h2, take_len_append, drop_len_append]

theorem lexLtb_asymm :
    ∀ a b : List Nat, lexLtb a b = true → lexLtb b a = true → False
  | _ :: _, [], h1, _ => by simp [lexLtb] at h1
  | [], [], h1, _ => by simp [lexLtb] at h1
  | [], _ :: _, _, h2 => by simp [lexLtb] at h2
  | a :: as, b :: bs, h1, h2 => by
    simp only [lexLtb, Bool.or_eq_true, Bool.and_eq_true,
      decide_eq_true_eq] at h1 h2
    rcases h1 with h1 | ⟨he1, h1⟩
    · rcases h2 with h2 | ⟨he2, _⟩
      · exact absurd h1 (Nat.lt_asymm h2)
      · exact absurd h1 (by omega)
    · rcases h2 with h2 | ⟨he2, h2⟩
      · exact absurd h2 (by omega)
      · exact lexLtb_asymm as bs h1 h2

theorem lexLtb_eq_of_not :
    ∀ a b : List Nat, lexLtb a b = false → lexLtb b a = false → a = b
  | [], [], _, _ => rfl
  | [], _ :: _, h1, _ => by simp [lexLtb] at h1
  | _ :: _, [], _, h2 => by simp [lexLtb] at h2
  | a :: as, b :: bs, h1, h2 => by
    simp only [lexLtb, Bool.or_eq_false_iff, Bool.and_eq_false_iff,
      decide_eq_false_iff_not] at h1 h2
    obtain ⟨hab, h1r⟩ := h1
    obtain ⟨hba, h2r⟩ := h2
    have he : a = b := by omega
    subst he
    have h1f : lexLtb as bs = false := by
      rcases h1r with h | h
      · exact absurd rfl h
      · exact h
    have h2f : lexLtb bs as = false := by
      rcases h2r with h | h
      · exact absurd rfl h
      · exact h
    rw [lexLtb_eq_of_not as bs h1f h2f]

theorem lexLtb_trans :
    ∀ a b c : List Nat, lexLtb a b = true → lexLtb b c = true →
      lexLtb a c = true
  | _, [], _, h1, _ => by simp [lexLtb] at h1
  | _, _ :: _, [], _, h2 => by simp [lexLtb] at h2
  | [], _ :: _, _ :: _, _, _ => rfl
  | a :: as, b :: bs, c :: cs, h1, h2 => by
    simp only [lexLtb, Bool.or_eq_true, Bool.and_eq_true,
      decide_eq_true_eq] at h1 h2 ⊢
    rcases h1 with h1 | ⟨he1, h1⟩
    · rcases h2 with h2 | ⟨he2, _⟩
      · exact Or.inl (Nat.lt_trans h1 h2)
      · exact Or.inl (he2 ▸ h1)
    · rcases h2 with h2 | ⟨he2, h2⟩
      · exact Or.inl (he1 ▸ h2)
      · exact Or.inr ⟨he1.trans he2, lexLtb_trans as bs cs h1 h2⟩

theorem lexLe_total (a b : List Nat) : lexLe a b ∨ lexLe b a := by
  rcases h1 : lexLtb a b with hf | ht
  · rcases h2 : lexLtb b a with hf2 | ht2
    · exact Or.inl (Or.inr (lexLtb_eq_of_not a b h1 h2))
    · exact Or.inr (Or.inl h2)
  · exact Or.inl (Or.inl h1)

theorem lexLe_trans {a b c : List Nat} (h1 : lexLe a b) (h2 : lexLe b c) :
    lexLe a c := by
  rcases h1 with h1 | rfl
  · rcases h2 with h2 | rfl
    · exact Or.inl (lexLtb_trans a b c h1 h2)
    · exact Or.inl h1
  · exact h2

instance {α : Type} : IsTotal (List Nat × α) keyLe :=
  ⟨fun p q => lexLe_total p.1 q.1⟩

instance {α : Type} : IsTrans (List Nat × α) keyLe :=
  ⟨fun _ _ _ h1 h2 => lexLe_trans h1 h2⟩

instance {α : Type} : IsAntisymm (List Nat × α) keyLt :=
  ⟨fun p q h1 h2 => (lexLtb_asymm p.1 q.1 h1 h2).elim⟩

theorem encodeDictVals_eq_map (d : List (List Nat × Entry)) :
    encodeDictVals d = d.map (fun p => (p.1, encodeEntry p.2)) := by
  induction d with
  | nil => simp [encodeDictVals]
  | cons p rest ih =>
    obtain ⟨k, e⟩ := p
    simp [encodeDictVals, ih]

theorem dictRemove_absent (k : List Nat) (d : List (List Nat × Entry))
    (h : keyNotIn k d) : dictRemove k d = (none, d) := by
  induction d with
  | nil => rfl
  | cons p rest ih =>
    obtain ⟨k1, v⟩ := p
    have hk : k1 ≠ k := h (k1, v) (List.mem_cons_self _ _)
    have hrest : keyNotIn k rest := fun q hq => h q (List.mem_cons_of_mem _ hq)
    simp [dictRemove, hk, ih hrest]

theorem dictRemove_found (k : List Nat) (e : Entry)
    (d1 d2 : List (List Nat × Entry)) (h : keyNotIn k d1) :
    dictRemove k (d1 ++ (k, e) :: d2) = (some e, d1 ++ d2) := by
  induction d1 with
  | nil => simp [dictRemove]
  | cons p rest ih =>
    obtain ⟨k1, v⟩ := p
    have hk : k1 ≠ k := h (k1, v) (List.mem_cons_self _ _)
    have hrest : keyNotIn k rest := fun q hq => h q (List.mem_cons_of_mem _ hq)
    simp [dictRemove, hk, ih hrest]

/- ===================================================================
   Claim theorems
   =================================================================== -/

/-- C1: the spec states that for every constructible bencode value tree,
decoding the encoding returns the original value.  The code refutes this
for every tree containing a dictionary: Entry::decode dispatches the
byte d to BDictionary::decode, but BDictionary::decode (encoding.rs line
240) demands the byte l, so the decoder rejects the encoding of even the
empty dictionary with InvalidFormat instead of returning the value. -/
theorem dict_roundtrip_fails :
    bdecode (encodeEntry (Entry.dict [])) = .error .invalidFormat := rfl

/-- C2: the spec states that a frame with positive length n and an
unknown id byte yields no message AND that exactly the n minus one
remaining payload bytes are discarded from the stream.  The generated
Recv code refutes the second half: for the frame 00 00 00 05, id 200,
payload 9 8 7 6 and a following byte 42, recv returns no message but
leaves all four payload bytes in the stream (the catch all arm of the
generated match performs no discard, and Connection::recv adds none),
so the stream is left misaligned at 9 8 7 6 42 instead of 42. -/
theorem unknown_id_no_discard :
    recvMessageCore [0, 0, 0, 5, 200, 9, 8, 7, 6, 42] =
      some (none, [9, 8, 7, 6, 42]) := rfl

/-- C4: the spec states that with length hint n the Bitfield decoder
consumes exactly n minus 1 bytes of bit data and the Piece decoder
consumes two u32 fields and then n minus 8 data bytes.  The code
refutes the Bitfield half: with hint 2 and stream id 5 followed by the
bytes 170 and 99, the decoder consumes BOTH bytes as bit data (hint
many, not hint minus one), and on the frame id 5 with hint 1, exactly
the frame its own Send emits for an empty bitfield, it over-reads past
the frame end into an io error, which is also what makes the crates own
round-trip test fail.  The Piece half matches the code: with hint 10
the decoder takes 10 minus 8 data bytes. -/
theorem bitfield_consumes_hint_bytes :
    recvBitfieldBT (some 2) [5, 170, 99] =
        some (some ⟨[170, 99]⟩, some 0, [])
      ∧ recvBitfieldBT (some 1) [5] = none
      ∧ recvPieceBT (some 10) [7, 0, 0, 0, 1, 0, 0, 0, 2, 55, 66] =
        some (some ⟨1, 2, [55, 66]⟩, some 0, []) :=
  ⟨rfl, rfl, rfl⟩

/-- C6: the spec states that frame level send writes the payload size
plus one as a FOUR byte big endian length, then the id byte, then the
payload.  The Container of bitrain-core does exactly that (second
conjunct, the Choke frame 00 00 00 01 00), but the SendContainer of
build_torrent_core writes the size through write_u8 as a SINGLE byte,
producing the two byte sequence 01 00 for the same message (first
conjunct), contradicting the claim, its own SendMessage trait
documentation and its own RecvContainer, which reads a u32 length. -/
theorem send_container_length_byte :
    sendContainerBT sizeChokeBT sendChokeBT = some [1, 0]
      ∧ sendContainerCore 0 0 [] = [0, 0, 0, 1, 0] :=
  ⟨rfl, rfl⟩

/-- C8 counterexample: the claim states that an input matching none of
the four grammar productions fails with InvalidFormat.  The input
consisting of the single byte 120 (the letter x) matches no production,
yet the decoder routes it to BString::decode, whose length prefix parse
fails, giving InvalidValue, not InvalidFormat. -/
theorem no_production_gives_invalidValue :
    bdecode [120] = .error .invalidValue
      ∧ bdecode [120] ≠ .error .invalidFormat :=
  ⟨rfl, fun h => BErr.noConfusion (Except.error.inj h)⟩

/-- C3: for the fixed shape kinds Have, Request and Cancel of
build_torrent_core, decoding with a length hint yields an absent
outcome (hint untouched) unless the hint equals the exact expected byte
count, 5 for Have and 13 for Request and Cancel; and when the id byte
does not match, the reported residual is the expected count minus one,
the id byte having been consumed. -/
theorem fixed_shape_exact_length (n m1 m2 i1 i2 i3 : Nat)
    (s0 t0 u0 s1 s2 s3 : List Nat)
    (hn : n ≠ 5) (hm1 : m1 ≠ 13) (hm2 : m2 ≠ 13)
    (h1 : i1 ≠ 4) (h2 : i2 ≠ 6) (h3 : i3 ≠ 8) :
    recvHaveBT (some n) s0 = some (none, some n, s0)
      ∧ recvRequestBT (some m1) t0 = some (none, some m1, t0)
      ∧ recvCancelBT (some m2) u0 = some (none, some m2, u0)
      ∧ recvHaveBT (some 5) (i1 :: s1) = some (none, some 4, s1)
      ∧ recvRequestBT (some 13) (i2 :: s2) = some (none, some 12, s2)
      ∧ recvCancelBT (some 13) (i3 :: s3) = some (none, some 12, s3) := by
  refine ⟨?_, ?_, ?_, ?_, ?_, ?_⟩
  · simp [recvHaveBT, hn]
  · simp [recvRequestBT, hm1]
  · simp [recvCancelBT, hm2]
  · simp [recvHaveBT, h1]
  · simp [recvRequestBT, h2]
  · simp [recvCancelBT, h3]

/-- C3 witness: the fixed shape statement evaluated at hint 3, id byte
0 and empty tails. -/
theorem fixed_shape_exact_length_witness :
    recvHaveBT (some 3) [] = some (none, some 3, [])
      ∧ recvRequestBT (some 3) [] = some (none, some 3, [])
      ∧ recvCancelBT (some 3) [] = some (none, some 3, [])
      ∧ recvHaveBT (some 5) (0 :: []) = some (none, some 4, [])
      ∧ recvRequestBT (some 13) (0 :: []) = some (none, some 12, [])
      ∧ recvCancelBT (some 13) (0 :: []) = some (none, some 12, []) :=
  fixed_shape_exact_length 3 3 3 0 0 0 [] [] [] [] [] []
    (by decide) (by decide) (by decide) (by decide) (by decide) (by decide)

/-- C9: a required field lookup removes the key from the dictionary and
fails with MissingField when the key is absent and with InvalidFormat
when the key is present with the wrong shape (and succeeds with the key
removed otherwise); an optional field lookup yields none silently in
both failure conditions, with the key equally removed, and its return
type has no error channel at all. -/
theorem field_lookup_spec {α : Type} (ex : Entry → Option α)
    (k : List Nat) (d d1 d2 : List (List Nat × Entry))
    (e e1 : Entry) (v : α)
    (habs : keyNotIn k d) (hpre : keyNotIn k d1)
    (hbad : ex e = none) (hgood : ex e1 = some v) :
    parseRequired ex d k = (.error (.missingField k), d)
      ∧ parseRequired ex (d1 ++ (k, e) :: d2) k =
          (.error (.invalidFormat k), d1 ++ d2)
      ∧ parseRequired ex (d1 ++ (k, e1) :: d2) k = (.ok v, d1 ++ d2)
      ∧ parseOptional ex d k = (none, d)
      ∧ parseOptional ex (d1 ++ (k, e) :: d2) k = (none, d1 ++ d2) := by
  refine ⟨?_, ?_, ?_, ?_, ?_⟩
  · simp [parseRequired, dictRemove_absent k d habs]
  · simp [parseRequired, dictRemove_found k e d1 d2 hpre, hbad]
  · simp [parseRequired, dictRemove_found k e1 d1 d2 hpre, hgood]
  · simp [parseOptional, dictRemove_absent k d habs]
  · simp [parseOptional, dictRemove_found k e d1 d2 hpre, hbad]

/-- C9 witness: the lookup statement evaluated with the integer shape
extractor, key 97, a dictionary holding only key 98, a string valued
entry for the wrong shape case and the integer 5 for the good case. -/
theorem field_lookup_spec_witness :
    parseRequired entryToInt [([98], Entry.int 7)] [97] =
        (.error (.missingField [97]), [([98], Entry.int 7)])
      ∧ parseRequired entryToInt
          ([([98], Entry.int 7)] ++ ([97], Entry.str []) :: []) [97] =
          (.error (.invalidFormat [97]), [([98], Entry.int 7)] ++ [])
      ∧ parseRequired entryToInt
          ([([98], Entry.int 7)] ++ ([97], Entry.int 5) :: []) [97] =
          (.ok 5, [([98], Entry.int 7)] ++ [])
      ∧ parseOptional entryToInt [([98], Entry.int 7)] [97] =
          (none, [([98], Entry.int 7)])
      ∧ parseOptional entryToInt
          ([([98], Entry.int 7)] ++ ([97], Entry.str []) :: []) [97] =
          (none, [([98], Entry.int 7)] ++ []) :=
  field_lookup_spec entryToInt [97] [([98], Entry.int 7)]
    [([98], Entry.int 7)] [] (Entry.str []) (Entry.int 5) 5
    (by decide) (by decide) rfl rfl

/-- C10: whenever len hint is at least one, the u8 decoder reads exactly
one byte and returns it but leaves the hint unchanged instead of
subtracting the byte consumed, while the primitive decoders of width k
(u16, u32, u64, u128) subtract their width from the hint; a residual
count computed from the hint after a u8 field therefore overstates the
remaining frame bytes by one. -/
theorem u8_decode_keeps_hint (h hk k b : Nat) (s t : List Nat)
    (hh : 1 ≤ h) (hkk : k ≤ hk) (hkl : k ≤ t.length) :
    decodeU8 h (b :: s) = some (some b, h, s)
      ∧ decodePrimBE k hk t =
          some (some (beVal (t.take k)), hk - k, t.drop k) := by
  constructor
  · rw [decodeU8, if_neg (by omega)]
  · rw [decodePrimBE, if_neg (by omega), if_neg (by omega)]

/-- C10 witness: the u8 decoder at hint 1 on the byte 7 keeps hint 1,
and the u32 decoder at hint 4 on four bytes drops the hint to 0. -/
theorem u8_decode_keeps_hint_witness :
    decodeU8 1 (7 :: []) = some (some 7, 1, [])
      ∧ decodePrimBE 4 4 [0, 0, 1, 2] =
          some (some (beVal ([0, 0, 1, 2].take 4)), 4 - 4,
            [0, 0, 1, 2].drop 4) :=
  u8_decode_keeps_hint 1 4 4 7 [] [0, 0, 1, 2]
    (by decide) (by decide) (by decide)

theorem keyLt_of_keyLe_ne {α : Type} {p q : List Nat × α}
    (h : keyLe p q) (hne : p.1 ≠ q.1) : keyLt p q := by
  rcases h with h | h
  · exact h
  · exact absurd h hne

/-- C5: encoding a bencode dictionary emits its key value pairs with the
keys in ascending raw byte order, and two dictionaries holding the same
pairs (a permutation, keys unique as the hash map guarantees) encode to
identical byte sequences regardless of insertion order. -/
theorem dict_encode_canonical (d1 d2 : List (List Nat × Entry))
    (hp : d1.Perm d2) (hnd : (d1.map Prod.fst).Nodup) :
    encodeEntry (Entry.dict d1) = encodeEntry (Entry.dict d2)
      ∧ List.Pairwise lexLe
          ((sortPairs (encodeDictVals d1)).map Prod.fst) := by
  have h1 := encodeDictVals_eq_map d1
  have h2 := encodeDictVals_eq_map d2
  have hperm : (encodeDictVals d1).Perm (encodeDictVals d2) := by
    rw [h1, h2]
    exact hp.map _
  have hkeys1 : (encodeDictVals d1).map Prod.fst = d1.map Prod.fst := by
    rw [h1]
    simp [List.map_map, Function.comp]
  have hnd1 : ((encodeDictVals d1).map Prod.fst).Nodup := by
    rw [hkeys1]
    exact hnd
  have hs1 : List.Sorted keyLe (sortPairs (encodeDictVals d1)) :=
    List.sorted_insertionSort keyLe _
  have hs2 : List.Sorted keyLe (sortPairs (encodeDictVals d2)) :=
    List.sorted_insertionSort keyLe _
  have hp1 : (sortPairs (encodeDictVals d1)).Perm
      (sortPairs (encodeDictVals d2)) :=
    ((List.perm_insertionSort keyLe _).trans hperm).trans
      (List.perm_insertionSort keyLe _).symm
  have hnds1 : ((sortPairs (encodeDictVals d1)).map Prod.fst).Nodup := by
    have hm : ((encodeDictVals d1).map Prod.fst).Perm
        ((sortPairs (encodeDictVals d1)).map Prod.fst) :=
      ((List.perm_insertionSort keyLe _).map Prod.fst).symm
    exact hm.nodup hnd1
  have hnds2 : ((sortPairs (encodeDictVals d2)).map Prod.fst).Nodup :=
    (hp1.map Prod.fst).nodup hnds1
  have hlt1 : List.Sorted keyLt (sortPairs (encodeDictVals d1)) := by
    have hne := (List.pairwise_map).mp hnds1
    exact hs1.imp₂ (fun p q hle hneq => keyLt_of_keyLe_ne hle hneq) hne
  have hlt2 : List.Sorted keyLt (sortPairs (encodeDictVals d2)) := by
    have hne := (List.pairwise_map).mp hnds2
    exact hs2.imp₂ (fun p q hle hneq => keyLt_of_keyLe_ne hle hneq) hne
  have heq : sortPairs (encodeDictVals d1) = sortPairs (encodeDictVals d2) :=
    List.eq_of_perm_of_sorted hp1 hlt1 hlt2
  constructor
  · simp only [encodeEntry]
    rw [heq]
  · exact List.pairwise_map.mpr hs1

/-- C5 witness: the two element dictionaries of the spec example, keys b
then a against a then b, applied to the canonical encoding statement. -/
theorem dict_encode_canonical_witness :
    encodeEntry (Entry.dict [([98], Entry.int 1), ([97], Entry.int 2)]) =
        encodeEntry (Entry.dict [([97], Entry.int 2), ([98], Entry.int 1)])
      ∧ List.Pairwise lexLe
          ((sortPairs (encodeDictVals
            [([98], Entry.int 1), ([97], Entry.int 2)])).map Prod.fst) :=
  dict_encode_canonical
    [([98], Entry.int 1), ([97], Entry.int 2)]
    [([97], Entry.int 2), ([98], Entry.int 1)]
    (List.Perm.swap ([97], Entry.int 2) ([98], Entry.int 1) [])
    (by decide)

/-- C8 amended: bencode decode fails with UnexpectedEndOfInput whenever
fewer bytes remain than a byte string declared length; it fails with
InvalidFormat when the input is empty at the start of a value, or when
the integer, list or dictionary decoder does not find its required
opening byte (for the dictionary decoder that byte is l, the list
delimiter, per the slip at encoding.rs line 240, so every input
starting with d is rejected there); and it fails with InvalidValue
whenever a numeric field, the integer body or the string length prefix,
does not parse as an unsigned 64 bit integer, which in particular is
the error produced when the input matches none of the four grammar
productions, such inputs being routed to the string decoder. -/
theorem bdecode_error_taxonomy (s t u w cs rs : List Nat) (len b : Nat)
    (hsc : collectUpTo 58 s = (cs, rs))
    (hsl : parseU64 cs = some len)
    (hse : rs.length < len)
    (ht : t.head? ≠ some 105)
    (hu : u.head? = some b)
    (hb1 : b ≠ 105) (hb2 : b ≠ 108) (hb3 : b ≠ 100)
    (huv : parseU64 (collectUpTo 58 u).1 = none)
    (hw : parseU64 (collectUpTo 101 w).1 = none) :
    decodeStrF s = .error .unexpectedEOF
      ∧ bdecode [] = .error .invalidFormat
      ∧ decodeIntF t = .error .invalidFormat
      ∧ (∀ f vb vs, vb ≠ 108 →
          decodeListF (f + 1) (vb :: vs) = some (.error .invalidFormat))
      ∧ (∀ f vb vs, vb ≠ 108 →
          decodeDictF (f + 1) (vb :: vs) = some (.error .invalidFormat))
      ∧ decodeIntF (105 :: w) = .error .invalidValue
      ∧ bdecode u = .error .invalidValue := by
  refine ⟨?_, rfl, ?_, ?_, ?_, ?_, ?_⟩
  · simp [decodeStrF, hsc, hsl, hse]
  · cases t with
    | nil => rfl
    | cons x xs =>
      have hx : x ≠ 105 := by simpa using ht
      simp [decodeIntF, hx]
  · intro f vb vs hvb
    simp [decodeListF, hvb]
  · intro f vb vs hvb
    simp [decodeDictF, hvb]
  · simp [decodeIntF, hw]
  · cases u with
    | nil => simp at hu
    | cons x xs =>
      have hx : x = b := by simpa using hu
      subst hx
      have hv : parseU64 (collectUpTo 58 (x :: xs)).1 = none := huv
      simp [bdecode, decodeEntryF, decodeStrF, Except.map, hb1, hb2, hb3, hv]

/-- C8 amended witness: the string 2:a with one byte missing gives
UnexpectedEndOfInput; the empty input and the input x colon handed to
the integer decoder give InvalidFormat; the list and dictionary
decoders reject any non l head; the integer body ie and the bare input
x give InvalidValue. -/
theorem bdecode_error_taxonomy_witness :
    decodeStrF [50, 58, 97] = .error .unexpectedEOF
      ∧ bdecode [] = .error .invalidFormat
      ∧ decodeIntF [120, 58] = .error .invalidFormat
      ∧ (∀ f vb vs, vb ≠ 108 →
          decodeListF (f + 1) (vb :: vs) = some (.error .invalidFormat))
      ∧ (∀ f vb vs, vb ≠ 108 →
          decodeDictF (f + 1) (vb :: vs) = some (.error .invalidFormat))
      ∧ decodeIntF (105 :: [101]) = .error .invalidValue
      ∧ bdecode [120] = .error .invalidValue :=
  bdecode_error_taxonomy [50, 58, 97] [120, 58] [120] [101] [50] [97] 2 120
    (by decide) (by decide) (by decide) (by decide) (by decide)
    (by decide) (by decide) (by decide) (by decide) (by decide)

/-- C7: handshake receive reads a one byte protocol name length and then
that many bytes; when those bytes differ from the ascii literal
BitTorrent protocol the outcome is absent, the following stream bytes
left untouched (no residual guarantee); when they match, it reads, in
order, 8 reserved bytes, a 20 byte info hash and a 20 byte peer id and
returns the assembled handshake, consuming exactly the frame. -/
theorem handshake_recv_correct (L : Nat) (P rest r ih pid tail : List Nat)
    (hPL : P.length = L) (hPne : P ≠ protoBytes)
    (hr : r.length = 8) (hih : ih.length = 20) (hpid : pid.length = 20) :
    handshakeRecv (L :: (P ++ rest)) = some (none, rest)
      ∧ handshakeRecv (19 :: (protoBytes ++ (r ++ (ih ++ (pid ++ tail))))) =
          some (some ⟨r, ih, pid⟩, tail) := by
  constructor
  · have e1 : decodeOrDiscard decodeU8 1 (L :: (P ++ rest)) =
        some (some L, 1, P ++ rest) := rfl
    have hv : decodeVecAll L (P ++ rest) = some (some P, 0, rest) := by
      rw [← hPL]
      exact decodeVecAll_exact P rest
    have e2 : decodeOrDiscard decodeVecAll L (P ++ rest) =
        some (some P, 0, rest) := by
      simp only [decodeOrDiscard, hv]
    simp [handshakeRecv, e1, e2, hPne]
  · have e1 : decodeOrDiscard decodeU8 1
        (19 :: (protoBytes ++ (r ++ (ih ++ (pid ++ tail))))) =
        some (some 19, 1, protoBytes ++ (r ++ (ih ++ (pid ++ tail)))) := rfl
    have hv : decodeVecAll 19 (protoBytes ++ (r ++ (ih ++ (pid ++ tail)))) =
        some (some protoBytes, 0, r ++ (ih ++ (pid ++ tail))) :=
      decodeVecAll_exact protoBytes (r ++ (ih ++ (pid ++ tail)))
    have e2 : decodeOrDiscard decodeVecAll 19
        (protoBytes ++ (r ++ (ih ++ (pid ++ tail)))) =
        some (some protoBytes, 0, r ++ (ih ++ (pid ++ tail))) := by
      simp only [decodeOrDiscard, hv]
    have ha3 : decodeArr 8 48 (r ++ (ih ++ (pid ++ tail))) =
        some (some r, 40, ih ++ (pid ++ tail)) := by
      have h := decodeArr_exact 8 48 r (ih ++ (pid ++ tail)) hr (by omega)
      norm_num at h
      exact h
    have e3 : decodeOrDiscard (decodeArr 8) 48 (r ++ (ih ++ (pid ++ tail))) =
        some (some r, 40, ih ++ (pid ++ tail)) := by
      simp only [decodeOrDiscard, ha3]
    have ha4 : decodeArr 20 40 (ih ++ (pid ++ tail)) =
        some (some ih, 20, pid ++ tail) := by
      have h := decodeArr_exact 20 40 ih (pid ++ tail) hih (by omega)
      norm_num at h
      exact h
    have e4 : decodeOrDiscard (decodeArr 20) 40 (ih ++ (pid ++ tail)) =
        some (some ih, 20, pid ++ tail) := by
      simp only [decodeOrDiscard, ha4]
    have ha5 : decodeArr 20 20 (pid ++ tail) = some (some pid, 0, tail) := by
      have h := decodeArr_exact 20 20 pid tail hpid (by omega)
      norm_num at h
      exact h
    have e5 : decodeOrDiscard (decodeArr 20) 20 (pid ++ tail) =
        some (some pid, 0, tail) := by
      simp only [decodeOrDiscard, ha5]
    simp [handshakeRecv, e1, e2, e3, e4, e5]

/-- C7 witness: a three byte wrong protocol name is rejected with the
rest of the stream untouched, and a full valid handshake frame with
zero reserved bytes, an info hash of twenty ones and a peer id of
twenty twos decodes to the assembled handshake. -/
theorem handshake_recv_correct_witness :
    handshakeRecv (3 :: ([1, 2, 3] ++ [9])) = some (none, [9])
      ∧ handshakeRecv (19 :: (protoBytes ++
          (List.replicate 8 0 ++ (List.replicate 20 1 ++
            (List.replicate 20 2 ++ [42]))))) =
          some (some ⟨List.replicate 8 0, List.replicate 20 1,
            List.replicate 20 2⟩, [42]) :=
  handshake_recv_correct 3 [1, 2, 3] [9] (List.replicate 8 0)
    (List.replicate 20 1) (List.replicate 20 2) [42]
    (by decide) (by decide) (by decide) (by decide) (by decide)
